import Mathlib

/-!
Verification of the homomorphic-encryption logistic-regression engine
(`machine-learning/fullyEndtoEndLogisticRegression.py`).

The embedding models:
* `HEVector` — the dataclass wrapping a ciphertext with `size`, `level`, `scale`
  metadata (`__post_init__` defaults `level = 6`, `scale = 2^40`).
* `HEState` — the mutable counters of `HEOperations`
  (`multiplication_count`, `addition_count`, `bootstrap_count`, `max_depth`).
* The operations `add`, `add_scalar`, `multiply`, `multiply_scalar`,
  `dot_product`, `power`, `bootstrap` as explicit state-passing functions.
* A reference-semantics (heap) model `HeapState` for claims about in-place
  mutation of argument objects.
* The model layer: `sigmoid_approximation`, `initialize_weights`,
  `compute_gradient_update` of `HomomorphicLogisticRegression`.

Ciphertexts are modelled by the plaintext vectors they encrypt (`List ℚ`);
the CKKS primitives act element-wise.  Decimal literals of the source are
the corresponding rationals.  Python ints are `ℤ` where they may be
negative (`level`, the exponent of `power`), `ℕ` for the counters.
-/

/-- Element-wise ciphertext addition (`a.ciphertext + b.ciphertext`). -/
def ctAdd (a b : List ℚ) : List ℚ := List.zipWith (· + ·) a b

/-- Element-wise ciphertext subtraction (`a.ciphertext - b.ciphertext`). -/
def ctSub (a b : List ℚ) : List ℚ := List.zipWith (· - ·) a b

/-- Element-wise ciphertext multiplication (`a.ciphertext * b.ciphertext`). -/
def ctMul (a b : List ℚ) : List ℚ := List.zipWith (· * ·) a b

/-- Ciphertext-by-plaintext-scalar multiplication (`a.ciphertext * scalar`). -/
def ctScalarMul (a : List ℚ) (s : ℚ) : List ℚ := a.map (· * s)

/-- Sum-reduction of a ciphertext (`ct.sum()`), a size-1 ciphertext. -/
def ctSum (a : List ℚ) : List ℚ := [a.sum]

/-- The `HEVector` dataclass: one encrypted vector plus its metadata. -/
structure HEVector where
  ciphertext : List ℚ
  size : ℕ
  level : ℤ
  scale : ℚ
deriving DecidableEq

/-- The mutable state of an `HEOperations` instance: the operation ledger
and the configured depth budget (`__init__` sets the counters to 0 and
`max_depth` to 6). -/
structure HEState where
  multiplication_count : ℕ
  addition_count : ℕ
  bootstrap_count : ℕ
  max_depth : ℤ
deriving DecidableEq

/-- A freshly constructed `HEOperations` ledger. -/
def HEState.init : HEState :=
  { multiplication_count := 0, addition_count := 0, bootstrap_count := 0,
    max_depth := 6 }

namespace HEOps

/-- Model of `HEOperations.add`: increments `addition_count`; result takes
`size = max`, `level = min`, `scale = a.scale`. -/
def add (st : HEState) (a b : HEVector) : HEVector × HEState :=
  let st' := { st with addition_count := st.addition_count + 1 }
  let result : HEVector :=
    { ciphertext := ctAdd a.ciphertext b.ciphertext,
      size := max a.size b.size,
      level := min a.level b.level,
      scale := a.scale }
  (result, st')

/-- Model of `HEOperations.add_scalar`: encrypts the scalar broadcast to `a.size`
and adds; no counter is touched. -/
def add_scalar (a : HEVector) (scalar : ℚ) : HEVector :=
  let scalar_vec := List.replicate a.size scalar
  { ciphertext := ctAdd a.ciphertext scalar_vec,
    size := a.size,
    level := a.level,
    scale := a.scale }

/-- Model of `HEOperations.bootstrap`: increments `bootstrap_count`, resets the
value's `level` to `max_depth` and `scale` to `2^40`.  (In the source the
argument object itself is mutated and returned; the returned value here is
exactly the state that object holds after the call.) -/
def bootstrap (st : HEState) (a : HEVector) : HEVector × HEState :=
  let st' := { st with bootstrap_count := st.bootstrap_count + 1 }
  ({ a with level := st.max_depth, scale := 2 ^ 40 }, st')

/-- Model of `HEOperations.multiply`: increments `multiplication_count`; result has
`size = min`, `level = min - 1`, `scale = a.scale * b.scale`; if the new
level is `≤ 1` the result is bootstrapped before being returned. -/
def multiply (st : HEState) (a b : HEVector) : HEVector × HEState :=
  let st' := { st with multiplication_count := st.multiplication_count + 1 }
  let new_level := min a.level b.level - 1
  let new_scale := a.scale * b.scale
  let result : HEVector :=
    { ciphertext := ctMul a.ciphertext b.ciphertext,
      size := min a.size b.size,
      level := new_level,
      scale := new_scale }
  if new_level ≤ 1 then bootstrap st' result else (result, st')

/-- Model of `HEOperations.multiply_scalar`: plaintext-scalar product; metadata and
ledger untouched. -/
def multiply_scalar (a : HEVector) (scalar : ℚ) : HEVector :=
  { ciphertext := ctScalarMul a.ciphertext scalar,
    size := a.size,
    level := a.level,
    scale := a.scale }

/-- Model of `HEOperations.dot_product`: element-wise product then sum-reduction to
a size-1 result with `level = min - 1`, `scale = a.scale * b.scale`.  The
source neither increments any counter nor performs the `≤ 1` refresh
check. -/
def dot_product (st : HEState) (a b : HEVector) : HEVector × HEState :=
  let result : HEVector :=
    { ciphertext := ctSum (ctMul a.ciphertext b.ciphertext),
      size := 1,
      level := min a.level b.level - 1,
      scale := a.scale * b.scale }
  (result, st)

/-- Model of `HEOperations.power`: returns `a` itself when `n = 1`; otherwise folds
`multiply result a` over `range (n - 1)` — which is empty for every
`n < 1`, so those exponents also return `a` unchanged (the source raises
no error). -/
def power (st : HEState) (a : HEVector) (n : ℤ) : HEVector × HEState :=
  if n = 1 then (a, st)
  else (List.range (n - 1).toNat).foldl (fun p _ => multiply p.2 p.1 a) (a, st)

end HEOps

/-- Model of `HomomorphicLogisticRegression.encrypt_vector`: encrypts a plaintext
vector; the `HEVector` constructor's `__post_init__` defaults `level` to 6
and `scale` to `2^40`. -/
def encrypt_vector (data : List ℚ) : HEVector :=
  { ciphertext := data, size := data.length, level := 6, scale := 2 ^ 40 }

/-- The `HomomorphicLogisticRegression` model state relevant to training:
the learning rate and the (initially `None`) encrypted weights and bias. -/
structure Model where
  learning_rate : ℚ
  weights : Option HEVector
  bias : Option HEVector
deriving DecidableEq

namespace HomLR

/-- Model of `HomomorphicLogisticRegression.sigmoid_approximation`:
`0.1973*x - 0.0048*x^3 + 0.5` built from two `multiply` calls, two
`multiply_scalar` calls, one `add` and one `add_scalar`. -/
def sigmoid_approximation (st : HEState) (x : HEVector) : HEVector × HEState :=
  let p1 := HEOps.multiply st x x
  let p2 := HEOps.multiply p1.2 p1.1 x
  let term1 := HEOps.multiply_scalar x (1973 / 10000)
  let term2 := HEOps.multiply_scalar p2.1 (-(48 / 10000))
  let p3 := HEOps.add p2.2 term1 term2
  (HEOps.add_scalar p3.1 (1 / 2), p3.2)

/-- Model of `HomomorphicLogisticRegression.initialize_weights`: encrypts the drawn
raw weights (the uniform draw is external randomness, passed in here) and
a zero bias, unconditionally overwriting `self.weights` and `self.bias`. -/
def initialize_weights (m : Model) (raw_weights : List ℚ) : Model :=
  { m with weights := some (encrypt_vector raw_weights),
           bias := some (encrypt_vector [0]) }

/-- The guard at the top of `HomomorphicLogisticRegression.fit`:
`if self.weights is None: self.initialize_weights(n_features)`. -/
def fit_init_step (m : Model) (raw_weights : List ℚ) : Model :=
  if m.weights = none then initialize_weights m raw_weights else m

/-- Model of `HomomorphicLogisticRegression.compute_gradient_update`: computes the
error term (unused), subtracts `enc_x * (lr*0.01) * 0.1` from the weights'
ciphertext and the constant `lr*0.01*0.1` from the bias' ciphertext, and
bumps the multiplication and addition counters by 2 each.  `None` weights
or bias make the attribute accesses fail in the source, hence `Option`. -/
def compute_gradient_update (m : Model) (st : HEState)
    (enc_x enc_y enc_pred : HEVector) : Option (Model × HEState) :=
  match m.weights, m.bias with
  | some w, some b =>
    let _error_ct := ctSub enc_pred.ciphertext enc_y.ciphertext
    let small_lr := m.learning_rate * (1 / 100)
    let _gradient_ct := ctScalarMul enc_x.ciphertext small_lr
    let weight_update := ctScalarMul enc_x.ciphertext small_lr
    let w' := { w with
      ciphertext := ctSub w.ciphertext (ctScalarMul weight_update (1 / 10)) }
    let bias_update := [small_lr * (1 / 10)]
    let b' := { b with ciphertext := ctSub b.ciphertext bias_update }
    let st' := { st with
      multiplication_count := st.multiplication_count + 2,
      addition_count := st.addition_count + 2 }
    some ({ m with weights := some w', bias := some b' }, st')
  | _, _ => none

end HomLR

/-!
Reference-semantics model.  Python `HEVector`s are heap objects passed by
reference: an operation that assigns to an argument's attributes (as
`bootstrap` does) is visible to every holder of that object.  `HeapState`
makes this observable: cells are addressed by `Nat` references, operations
allocate fresh cells for their results, and `hbootstrap` writes through
its argument reference and returns that same reference.
-/

/-- The heap of `HEVector` objects together with the `HEOperations`
counters: `mem` maps references to object states, `next` is the next
fresh reference. -/
structure HeapState where
  mem : ℕ → HEVector
  next : ℕ
  multiplication_count : ℕ
  addition_count : ℕ
  bootstrap_count : ℕ
  max_depth : ℤ

namespace HeapState

/-- Allocate a fresh object, returning its reference. -/
def alloc (h : HeapState) (v : HEVector) : ℕ × HeapState :=
  (h.next, { h with mem := Function.update h.mem h.next v, next := h.next + 1 })

/-- Model of `HEOperations.add` on heap objects: reads the arguments, allocates the
result. -/
def hadd (h : HeapState) (ra rb : ℕ) : ℕ × HeapState :=
  let a := h.mem ra
  let b := h.mem rb
  let h1 := { h with addition_count := h.addition_count + 1 }
  h1.alloc
    { ciphertext := ctAdd a.ciphertext b.ciphertext,
      size := max a.size b.size,
      level := min a.level b.level,
      scale := a.scale }

/-- Model of `HEOperations.add_scalar` on heap objects. -/
def hadd_scalar (h : HeapState) (ra : ℕ) (scalar : ℚ) : ℕ × HeapState :=
  let a := h.mem ra
  h.alloc
    { ciphertext := ctAdd a.ciphertext (List.replicate a.size scalar),
      size := a.size,
      level := a.level,
      scale := a.scale }

/-- Model of `HEOperations.bootstrap` on heap objects: `a.level = self.max_depth`
and `a.scale = 2**40` assign through the argument reference, and the same
reference is returned (`return a`). -/
def hbootstrap (h : HeapState) (ra : ℕ) : ℕ × HeapState :=
  let a := h.mem ra
  let h1 := { h with bootstrap_count := h.bootstrap_count + 1 }
  (ra, { h1 with
    mem := Function.update h1.mem ra { a with level := h.max_depth, scale := 2 ^ 40 } })

/-- Model of `HEOperations.multiply` on heap objects: allocates the result; when
the new level is `≤ 1` the freshly allocated result is bootstrapped. -/
def hmultiply (h : HeapState) (ra rb : ℕ) : ℕ × HeapState :=
  let a := h.mem ra
  let b := h.mem rb
  let h1 := { h with multiplication_count := h.multiplication_count + 1 }
  let new_level := min a.level b.level - 1
  let p := h1.alloc
    { ciphertext := ctMul a.ciphertext b.ciphertext,
      size := min a.size b.size,
      level := new_level,
      scale := a.scale * b.scale }
  if new_level ≤ 1 then p.2.hbootstrap p.1 else p

/-- Model of `HEOperations.multiply_scalar` on heap objects. -/
def hmultiply_scalar (h : HeapState) (ra : ℕ) (scalar : ℚ) : ℕ × HeapState :=
  let a := h.mem ra
  h.alloc
    { ciphertext := ctScalarMul a.ciphertext scalar,
      size := a.size,
      level := a.level,
      scale := a.scale }

/-- Model of `HEOperations.dot_product` on heap objects. -/
def hdot_product (h : HeapState) (ra rb : ℕ) : ℕ × HeapState :=
  let a := h.mem ra
  let b := h.mem rb
  h.alloc
    { ciphertext := ctSum (ctMul a.ciphertext b.ciphertext),
      size := 1,
      level := min a.level b.level - 1,
      scale := a.scale * b.scale }

/-- Model of `HEOperations.power` on heap objects: for `n = 1` (and, via the empty
loop, every `n < 1`) the argument reference itself is returned. -/
def hpower (h : HeapState) (ra : ℕ) (n : ℤ) : ℕ × HeapState :=
  if n = 1 then (ra, h)
  else (List.range (n - 1).toNat).foldl (fun p _ => p.2.hmultiply p.1 ra) (ra, h)

end HeapState

example : (HEOps.multiply HEState.init ⟨[2], 1, 6, 2 ^ 40⟩ ⟨[3], 1, 5, 2 ^ 40⟩).1.level = 4 := by
  decide

example : (HEOps.multiply HEState.init ⟨[2], 1, 2, 2 ^ 40⟩ ⟨[3], 1, 2, 2 ^ 40⟩).1.level = 6 := by
  decide

example :
    (HEOps.power HEState.init ⟨[2], 1, 6, 1⟩ 3).2.multiplication_count = 2 := by
  decide

example :
    (HomLR.sigmoid_approximation HEState.init ⟨[2], 1, 6, 1⟩).1.level = 4 := by
  decide

/-! ## Helper lemmas -/

/-- Model of `multiply` always increments `multiplication_count` by exactly one,
whether or not the auto-refresh fires. -/
lemma multiply_count (st : HEState) (a b : HEVector) :
    (HEOps.multiply st a b).2.multiplication_count = st.multiplication_count + 1 := by
  simp only [HEOps.multiply, HEOps.bootstrap]
  split <;> rfl

/-- Model of `multiply` when the decremented level stays above the refresh
threshold: no bootstrap, the raw result is returned. -/
lemma multiply_no_refresh (st : HEState) (a b : HEVector)
    (h : 1 < min a.level b.level - 1) :
    HEOps.multiply st a b =
      ({ ciphertext := ctMul a.ciphertext b.ciphertext,
         size := min a.size b.size,
         level := min a.level b.level - 1,
         scale := a.scale * b.scale },
       { st with multiplication_count := st.multiplication_count + 1 }) := by
  simp only [HEOps.multiply]
  rw [if_neg (by omega)]

/-- The `power` loop adds one multiplication per iteration. -/
lemma power_loop_count (a : HEVector) (l : List ℕ) (p : HEVector × HEState) :
    ((l.foldl (fun q _ => HEOps.multiply q.2 q.1 a) p)).2.multiplication_count
      = p.2.multiplication_count + l.length := by
  induction l generalizing p with
  | nil => simp
  | cons x l ih =>
      rw [List.foldl_cons, ih, multiply_count]
      simp only [List.length_cons]
      omega

/-- One `hmultiply` call allocates at `next` (bootstrapping, if it fires,
rewrites that same fresh cell), so every pre-existing cell survives, the
returned reference is fresh, and `next` grows. -/
lemma hmultiply_frame (h : HeapState) (ra rb : ℕ) :
    h.next ≤ (h.hmultiply ra rb).2.next ∧
    h.next ≤ (h.hmultiply ra rb).1 ∧
    ∀ r, r < h.next → (h.hmultiply ra rb).2.mem r = h.mem r := by
  simp only [HeapState.hmultiply, HeapState.alloc, HeapState.hbootstrap]
  split
  · refine ⟨by simp, by simp, fun r hr => ?_⟩
    simp [Function.update_noteq (by omega : r ≠ h.next)]
  · refine ⟨by simp, by simp, fun r hr => ?_⟩
    simp [Function.update_noteq (by omega : r ≠ h.next)]

/-- The `hpower` loop keeps every cell below the starting `next`
untouched. -/
lemma hpower_loop_frame (ra : ℕ) (l : List ℕ) (p : ℕ × HeapState) :
    p.2.next ≤ ((l.foldl (fun q _ => q.2.hmultiply q.1 ra) p)).2.next ∧
    ∀ r, r < p.2.next →
      ((l.foldl (fun q _ => q.2.hmultiply q.1 ra) p)).2.mem r = p.2.mem r := by
  induction l generalizing p with
  | nil => exact ⟨le_refl _, fun r _ => rfl⟩
  | cons x l ih =>
      rw [List.foldl_cons]
      obtain ⟨hnext, hone, hmem⟩ := hmultiply_frame p.2 p.1 ra
      obtain ⟨ihnext, ihmem⟩ := ih (p.2.hmultiply p.1 ra)
      refine ⟨le_trans hnext ihnext, fun r hr => ?_⟩
      rw [ihmem r (lt_of_lt_of_le hr hnext), hmem r hr]

/-! ## Claims -/

/-- C7: `bootstrap(a)` returns, for every `a` (in particular one whose
level already equals `max_depth`), a value with `level = max_depth` and
`scale = 2^40`, with the same ciphertext, and increments `bootstrap_count`
by exactly one — the refresh is never a no-op short-circuit. -/
theorem bootstrap_resets_and_counts (st : HEState) (a : HEVector) :
    (HEOps.bootstrap st a).1.level = st.max_depth ∧
    (HEOps.bootstrap st a).1.scale = 2 ^ 40 ∧
    (HEOps.bootstrap st a).1.ciphertext = a.ciphertext ∧
    (HEOps.bootstrap st a).1.size = a.size ∧
    (HEOps.bootstrap st a).2.bootstrap_count = st.bootstrap_count + 1 := by
  simp [HEOps.bootstrap]

/-- C2: with `max_depth ≥ 2`, every value `multiply` returns has level
`≥ 2`, hence is immediately usable for a further multiplication. -/
theorem multiply_result_usable (st : HEState) (a b : HEVector)
    (hd : 2 ≤ st.max_depth) (ha : 1 ≤ a.level) (hb : 1 ≤ b.level) :
    2 ≤ (HEOps.multiply st a b).1.level := by
  simp only [HEOps.multiply, HEOps.bootstrap]
  split <;> simp <;> omega

/-- Witness for C2 at `max_depth = 6` and two fresh level-6 vectors. -/
theorem multiply_result_usable_witness :
    2 ≤ HEState.init.max_depth ∧
    2 ≤ (HEOps.multiply HEState.init ⟨[2], 1, 6, 2 ^ 40⟩ ⟨[3], 1, 6, 2 ^ 40⟩).1.level :=
  ⟨by decide,
   multiply_result_usable HEState.init ⟨[2], 1, 6, 2 ^ 40⟩ ⟨[3], 1, 6, 2 ^ 40⟩
     (by decide) (by decide) (by decide)⟩

/-- C1 counterexample: two level-2 inputs with scale `2^40` each lie in
the claim's scope (`level ≥ 2`), yet the returned scale is the canonical
`2^40` of the fired auto-refresh, not `a.scale * b.scale = 2^80`. -/
theorem multiply_scale_claim_refuted :
    2 ≤ (⟨[1], 1, 2, 2 ^ 40⟩ : HEVector).level ∧
    (HEOps.multiply HEState.init ⟨[1], 1, 2, 2 ^ 40⟩ ⟨[1], 1, 2, 2 ^ 40⟩).1.scale ≠
      ((2 : ℚ) ^ 40) * 2 ^ 40 := by
  refine ⟨by decide, ?_⟩
  norm_num [HEOps.multiply, HEOps.bootstrap, HEState.init]

/-- C1 amended: for `a.level ≥ 2`, `b.level ≥ 2`, `multiply` increments
`multiplication_count` by one and returns size `min a.size b.size`; the
level is `min - 1`, the scale `a.scale * b.scale` and the bootstrap
counter untouched unless `min - 1 ≤ 1`, in which case the level is
`max_depth`, the scale the canonical `2^40`, and `bootstrap_count` grew by
exactly one. -/
theorem multiply_level_scale_spec (st : HEState) (a b : HEVector)
    (ha : 2 ≤ a.level) (hb : 2 ≤ b.level) :
    (HEOps.multiply st a b).2.multiplication_count = st.multiplication_count + 1 ∧
    (HEOps.multiply st a b).1.size = min a.size b.size ∧
    (if min a.level b.level - 1 ≤ 1
      then (HEOps.multiply st a b).1.level = st.max_depth ∧
           (HEOps.multiply st a b).1.scale = 2 ^ 40 ∧
           (HEOps.multiply st a b).2.bootstrap_count = st.bootstrap_count + 1
      else (HEOps.multiply st a b).1.level = min a.level b.level - 1 ∧
           (HEOps.multiply st a b).1.scale = a.scale * b.scale ∧
           (HEOps.multiply st a b).2.bootstrap_count = st.bootstrap_count) := by
  simp only [HEOps.multiply, HEOps.bootstrap]
  split <;> simp_all

/-- Witness for the amended C1 at two level-6 inputs (no refresh). -/
theorem multiply_level_scale_spec_witness :
    2 ≤ (⟨[2], 1, 6, 2 ^ 40⟩ : HEVector).level ∧
    ((HEOps.multiply HEState.init ⟨[2], 1, 6, 2 ^ 40⟩ ⟨[3], 2, 6, 2 ^ 40⟩).2.multiplication_count
        = HEState.init.multiplication_count + 1 ∧
     (HEOps.multiply HEState.init ⟨[2], 1, 6, 2 ^ 40⟩ ⟨[3], 2, 6, 2 ^ 40⟩).1.size = min 1 2 ∧
     (if min (6 : ℤ) 6 - 1 ≤ 1
       then (HEOps.multiply HEState.init ⟨[2], 1, 6, 2 ^ 40⟩ ⟨[3], 2, 6, 2 ^ 40⟩).1.level
              = HEState.init.max_depth ∧
            (HEOps.multiply HEState.init ⟨[2], 1, 6, 2 ^ 40⟩ ⟨[3], 2, 6, 2 ^ 40⟩).1.scale = 2 ^ 40 ∧
            (HEOps.multiply HEState.init ⟨[2], 1, 6, 2 ^ 40⟩ ⟨[3], 2, 6, 2 ^ 40⟩).2.bootstrap_count
              = HEState.init.bootstrap_count + 1
       else (HEOps.multiply HEState.init ⟨[2], 1, 6, 2 ^ 40⟩ ⟨[3], 2, 6, 2 ^ 40⟩).1.level
              = min (6 : ℤ) 6 - 1 ∧
            (HEOps.multiply HEState.init ⟨[2], 1, 6, 2 ^ 40⟩ ⟨[3], 2, 6, 2 ^ 40⟩).1.scale
              = (2 ^ 40 : ℚ) * 2 ^ 40 ∧
            (HEOps.multiply HEState.init ⟨[2], 1, 6, 2 ^ 40⟩ ⟨[3], 2, 6, 2 ^ 40⟩).2.bootstrap_count
              = HEState.init.bootstrap_count)) :=
  ⟨by decide,
   multiply_level_scale_spec HEState.init ⟨[2], 1, 6, 2 ^ 40⟩ ⟨[3], 2, 6, 2 ^ 40⟩
     (by decide) (by decide)⟩

/-- C3 counterexample: on two level-2 inputs `dot_product` returns level
`1 ≤ 1` with no bootstrap — `bootstrap_count` stays `0` and the level is
not the `max_depth` of `6` that the claimed auto-refresh would set. -/
theorem dot_product_refresh_claim_refuted :
    (HEOps.dot_product HEState.init ⟨[1, 2], 2, 2, 1⟩ ⟨[3, 4], 2, 2, 1⟩).1.level = 1 ∧
    (HEOps.dot_product HEState.init ⟨[1, 2], 2, 2, 1⟩ ⟨[3, 4], 2, 2, 1⟩).2.bootstrap_count = 0 ∧
    HEState.init.max_depth = 6 := by
  decide

/-- C3 amended: `dot_product` returns a size-1 result with
`level = min(a.level, b.level) - 1` and `scale = a.scale * b.scale`, but —
unlike `multiply` — performs no auto-refresh threshold check, increments
no counter, and leaves the ledger entirely unchanged, even when the
resulting level is `≤ 1`. -/
theorem dot_product_spec (st : HEState) (a b : HEVector) :
    (HEOps.dot_product st a b).1.size = 1 ∧
    (HEOps.dot_product st a b).1.level = min a.level b.level - 1 ∧
    (HEOps.dot_product st a b).1.scale = a.scale * b.scale ∧
    (HEOps.dot_product st a b).1.ciphertext = ctSum (ctMul a.ciphertext b.ciphertext) ∧
    (HEOps.dot_product st a b).2 = st := by
  simp [HEOps.dot_product]

/-- C5: the parameter update ignores the error term — two calls agreeing
on `enc_x` and the prior model state but differing arbitrarily in
`enc_pred` and/or `enc_y` produce identical model states and ledgers. -/
theorem gradient_update_ignores_error (m : Model) (st : HEState)
    (enc_x enc_y enc_pred enc_y' enc_pred' : HEVector) :
    HomLR.compute_gradient_update m st enc_x enc_y enc_pred =
    HomLR.compute_gradient_update m st enc_x enc_y' enc_pred' := by
  obtain ⟨lr, w, b⟩ := m
  cases w <;> cases b <;> rfl

/-- C6 counterexample: `power` with exponent `0 < 1` raises nothing — the
loop over `range(n-1)` simply runs zero times and the input comes back
unchanged, ledger untouched (no `InvalidExponent` exists anywhere in the
code). -/
theorem power_exponent_claim_refuted :
    HEOps.power HEState.init ⟨[2], 1, 6, 1⟩ 0 = (⟨[2], 1, 6, 1⟩, HEState.init) ∧
    HEOps.power HEState.init ⟨[2], 1, 6, 1⟩ (-3) = (⟨[2], 1, 6, 1⟩, HEState.init) := by
  constructor <;> rfl

/-- C6 amended: `power(a, n)` returns `a` and the ledger unchanged for
every `n < 1` (no error is raised — the `range(n-1)` loop is empty), and
for every `n` performs exactly `(n-1).toNat` calls to `multiply` (so
`n - 1` of them when `n ≥ 2`), each subject to the standard auto-refresh
policy, as witnessed by the multiplication counter. -/
theorem power_spec (st : HEState) (a : HEVector) (n : ℤ) :
    (HEOps.power st a n).2.multiplication_count
      = st.multiplication_count + (n - 1).toNat ∧
    (n < 1 → HEOps.power st a n = (a, st)) := by
  constructor
  · by_cases h1 : n = 1
    · simp [HEOps.power, h1]
    · simp only [HEOps.power, if_neg h1]
      rw [power_loop_count]
      simp
  · intro hn
    have h1 : n ≠ 1 := by omega
    have h0 : (n - 1).toNat = 0 := by omega
    simp [HEOps.power, if_neg h1, h0]

/-- Witness for the amended C6 at `n = 0`. -/
theorem power_spec_witness :
    (HEOps.power HEState.init ⟨[5], 1, 6, 1⟩ 0).2.multiplication_count
      = HEState.init.multiplication_count + ((0 : ℤ) - 1).toNat ∧
    HEOps.power HEState.init ⟨[5], 1, 6, 1⟩ 0 = (⟨[5], 1, 6, 1⟩, HEState.init) :=
  ⟨(power_spec HEState.init ⟨[5], 1, 6, 1⟩ 0).1,
   (power_spec HEState.init ⟨[5], 1, 6, 1⟩ 0).2 (by decide)⟩

/-- C4: for `max_depth = 6` and an input of level at least 4 (so neither
internal `multiply` trips the refresh threshold), the polynomial sigmoid
returns a value of level `x.level - 2` and performs exactly two
ciphertext-ciphertext multiplications. -/
theorem sigmoid_depth_cost (st : HEState) (x : HEVector)
    (hd : st.max_depth = 6) (hx : 4 ≤ x.level) :
    (HomLR.sigmoid_approximation st x).1.level = x.level - 2 ∧
    (HomLR.sigmoid_approximation st x).2.multiplication_count
      = st.multiplication_count + 2 := by
  have h1 := multiply_no_refresh st x x (by omega)
  simp only [HomLR.sigmoid_approximation, h1]
  rw [multiply_no_refresh _ _ _ (by simp; omega)]
  simp [HEOps.add, HEOps.add_scalar, HEOps.multiply_scalar]
  omega

/-- Witness for C4 at a fresh level-6 input. -/
theorem sigmoid_depth_cost_witness :
    HEState.init.max_depth = 6 ∧ 4 ≤ (⟨[2], 1, 6, 2 ^ 40⟩ : HEVector).level ∧
    ((HomLR.sigmoid_approximation HEState.init ⟨[2], 1, 6, 2 ^ 40⟩).1.level = 6 - 2 ∧
     (HomLR.sigmoid_approximation HEState.init ⟨[2], 1, 6, 2 ^ 40⟩).2.multiplication_count
       = HEState.init.multiplication_count + 2) :=
  ⟨by decide, by decide,
   sigmoid_depth_cost HEState.init ⟨[2], 1, 6, 2 ^ 40⟩ (by decide) (by decide)⟩

/-- C9 counterexample: `initialize_weights` on a model whose weights were
already initialized (with draw `[3]`) returns normally and silently
replaces them with the fresh encryption of the new draw `[5]` — it does
not fail. -/
theorem initialize_weights_claim_refuted :
    (HomLR.initialize_weights
        (HomLR.initialize_weights ⟨1 / 10, none, none⟩ [3]) [5]).weights
      = some (encrypt_vector [5]) ∧
    (HomLR.initialize_weights
        (HomLR.initialize_weights ⟨1 / 10, none, none⟩ [3]) [5]).weights
      ≠ (HomLR.initialize_weights ⟨1 / 10, none, none⟩ [3]).weights := by
  decide

/-- C9 amended: `initialize_weights` contains no re-initialization guard:
on any model, in particular one whose weights are already `some w`, it
returns normally, overwriting the weights with the fresh encryption of the
draw and the bias with an encrypted zero.  The only guard lives in `fit`,
which skips initialization entirely when weights exist. -/
theorem initialize_weights_overwrites (m : Model) (raw : List ℚ)
    (w : HEVector) (hw : m.weights = some w) :
    (HomLR.initialize_weights m raw).weights = some (encrypt_vector raw) ∧
    (HomLR.initialize_weights m raw).bias = some (encrypt_vector [0]) ∧
    HomLR.fit_init_step m raw = m := by
  refine ⟨rfl, rfl, ?_⟩
  simp [HomLR.fit_init_step, hw]

/-- Witness for the amended C9 on an already-initialized model. -/
theorem initialize_weights_overwrites_witness :
    (⟨1 / 10, some (encrypt_vector [3]), some (encrypt_vector [0])⟩ : Model).weights
      = some (encrypt_vector [3]) ∧
    ((HomLR.initialize_weights ⟨1 / 10, some (encrypt_vector [3]), some (encrypt_vector [0])⟩ [5]).weights
        = some (encrypt_vector [5]) ∧
     (HomLR.initialize_weights ⟨1 / 10, some (encrypt_vector [3]), some (encrypt_vector [0])⟩ [5]).bias
        = some (encrypt_vector [0]) ∧
     HomLR.fit_init_step ⟨1 / 10, some (encrypt_vector [3]), some (encrypt_vector [0])⟩ [5]
        = ⟨1 / 10, some (encrypt_vector [3]), some (encrypt_vector [0])⟩) :=
  ⟨by decide,
   initialize_weights_overwrites ⟨1 / 10, some (encrypt_vector [3]), some (encrypt_vector [0])⟩
     [5] (encrypt_vector [3]) rfl⟩

/-- C10: `compute_gradient_update` succeeds on an initialized model,
mutating only the ciphertext fields of the weights and bias — their
`level`, `scale` and `size` are unchanged — while `multiplication_count`
and `addition_count` each grow by exactly 2 and `bootstrap_count` (and
`max_depth`, and the learning rate) stay put. -/
theorem gradient_update_frame (m : Model) (st : HEState)
    (enc_x enc_y enc_pred : HEVector) (w b : HEVector)
    (hw : m.weights = some w) (hb : m.bias = some b) :
    ∃ m' st', HomLR.compute_gradient_update m st enc_x enc_y enc_pred = some (m', st') ∧
      (∃ w', m'.weights = some w' ∧ w'.level = w.level ∧ w'.scale = w.scale ∧
        w'.size = w.size) ∧
      (∃ b', m'.bias = some b' ∧ b'.level = b.level ∧ b'.scale = b.scale ∧
        b'.size = b.size) ∧
      m'.learning_rate = m.learning_rate ∧
      st'.multiplication_count = st.multiplication_count + 2 ∧
      st'.addition_count = st.addition_count + 2 ∧
      st'.bootstrap_count = st.bootstrap_count ∧
      st'.max_depth = st.max_depth := by
  obtain ⟨lr, w?, b?⟩ := m
  cases w? with
  | none => cases hw
  | some w0 =>
    cases b? with
    | none => cases hb
    | some b0 =>
      obtain rfl : w0 = w := by injection hw
      obtain rfl : b0 = b := by injection hb
      exact ⟨_, _, rfl, ⟨_, rfl, rfl, rfl, rfl⟩, ⟨_, rfl, rfl, rfl, rfl⟩,
        rfl, rfl, rfl, rfl, rfl⟩

/-- A concrete two-cell heap (both cells hold a level-3 vector) for
concrete evaluations of the reference-semantics model. -/
def heapSample : HeapState :=
  { mem := fun _ => ⟨[1], 1, 3, 2 ^ 40⟩, next := 2,
    multiplication_count := 0, addition_count := 0, bootstrap_count := 0,
    max_depth := 6 }

/-- C8 counterexample: `bootstrap` does NOT leave its argument's level and
scale unchanged — it assigns through the argument reference (cell 0 goes
from level 3 to level 6 and from scale `2^40` to the canonical scale) and
returns that same reference rather than a new CipherValue. -/
theorem bootstrap_mutation_refutes_claim :
    (heapSample.mem 0).level = 3 ∧
    ((heapSample.hbootstrap 0).2.mem 0).level = 6 ∧
    (heapSample.hbootstrap 0).1 = 0 ∧
    (heapSample.hbootstrap 0).2.next = heapSample.next := by
  refine ⟨rfl, ?_, rfl, rfl⟩
  simp [HeapState.hbootstrap, heapSample]

/-- C8 amended: `add`, `add_scalar`, `multiply`, `multiply_scalar` and
`dot_product` allocate a fresh CipherValue and leave every pre-existing
cell — their arguments included — unchanged; `power` also leaves every
pre-existing cell unchanged (though for `n ≤ 1` it returns its argument
itself, not a new value); `bootstrap`, however, mutates its argument in
place, resetting exactly that cell's level and scale (ciphertext and all
other cells untouched) and returning the argument's own reference.  The
model-level parameter update additionally mutates the weights and bias in
place (C10). -/
theorem arithmetic_ops_frame (h : HeapState) (ra rb r : ℕ) (s : ℚ) (n : ℤ)
    (hr : r < h.next) :
    ((h.hadd ra rb).2.mem r = h.mem r ∧ h.next ≤ (h.hadd ra rb).1) ∧
    ((h.hadd_scalar ra s).2.mem r = h.mem r ∧ h.next ≤ (h.hadd_scalar ra s).1) ∧
    ((h.hmultiply ra rb).2.mem r = h.mem r ∧ h.next ≤ (h.hmultiply ra rb).1) ∧
    ((h.hmultiply_scalar ra s).2.mem r = h.mem r ∧
      h.next ≤ (h.hmultiply_scalar ra s).1) ∧
    ((h.hdot_product ra rb).2.mem r = h.mem r ∧ h.next ≤ (h.hdot_product ra rb).1) ∧
    (h.hpower ra n).2.mem r = h.mem r ∧
    ((h.hbootstrap ra).1 = ra ∧
     ((h.hbootstrap ra).2.mem ra).level = h.max_depth ∧
     ((h.hbootstrap ra).2.mem ra).scale = 2 ^ 40 ∧
     ((h.hbootstrap ra).2.mem ra).ciphertext = (h.mem ra).ciphertext ∧
     ((h.hbootstrap ra).2.mem ra).size = (h.mem ra).size ∧
     (r ≠ ra → (h.hbootstrap ra).2.mem r = h.mem r)) := by
  have hne : r ≠ h.next := by omega
  refine ⟨⟨?_, ?_⟩, ⟨?_, ?_⟩, ⟨?_, ?_⟩, ⟨?_, ?_⟩, ⟨?_, ?_⟩, ?_, rfl, ?_, ?_, ?_, ?_, ?_⟩
  · simp [HeapState.hadd, HeapState.alloc, Function.update_noteq hne]
  · simp [HeapState.hadd, HeapState.alloc]
  · simp [HeapState.hadd_scalar, HeapState.alloc, Function.update_noteq hne]
  · simp [HeapState.hadd_scalar, HeapState.alloc]
  · exact (hmultiply_frame h ra rb).2.2 r hr
  · exact (hmultiply_frame h ra rb).2.1
  · simp [HeapState.hmultiply_scalar, HeapState.alloc, Function.update_noteq hne]
  · simp [HeapState.hmultiply_scalar, HeapState.alloc]
  · simp [HeapState.hdot_product, HeapState.alloc, Function.update_noteq hne]
  · simp [HeapState.hdot_product, HeapState.alloc]
  · by_cases h1 : n = 1
    · simp [HeapState.hpower, h1]
    · simp only [HeapState.hpower, if_neg h1]
      exact (hpower_loop_frame ra _ (ra, h)).2 r hr
  · simp [HeapState.hbootstrap]
  · simp [HeapState.hbootstrap]
  · simp [HeapState.hbootstrap]
  · simp [HeapState.hbootstrap]
  · intro hra
    simp [HeapState.hbootstrap, Function.update_noteq hra]

/-- Witness for the amended C8 on the concrete two-cell heap, observing
cell 1 while the operations take cell 0 as argument. -/
theorem arithmetic_ops_frame_witness :
    1 < heapSample.next ∧
    (((heapSample.hadd 0 0).2.mem 1 = heapSample.mem 1 ∧
        heapSample.next ≤ (heapSample.hadd 0 0).1) ∧
     ((heapSample.hadd_scalar 0 5).2.mem 1 = heapSample.mem 1 ∧
        heapSample.next ≤ (heapSample.hadd_scalar 0 5).1) ∧
     ((heapSample.hmultiply 0 0).2.mem 1 = heapSample.mem 1 ∧
        heapSample.next ≤ (heapSample.hmultiply 0 0).1) ∧
     ((heapSample.hmultiply_scalar 0 5).2.mem 1 = heapSample.mem 1 ∧
        heapSample.next ≤ (heapSample.hmultiply_scalar 0 5).1) ∧
     ((heapSample.hdot_product 0 0).2.mem 1 = heapSample.mem 1 ∧
        heapSample.next ≤ (heapSample.hdot_product 0 0).1) ∧
     (heapSample.hpower 0 2).2.mem 1 = heapSample.mem 1 ∧
     ((heapSample.hbootstrap 0).1 = 0 ∧
      ((heapSample.hbootstrap 0).2.mem 0).level = heapSample.max_depth ∧
      ((heapSample.hbootstrap 0).2.mem 0).scale = 2 ^ 40 ∧
      ((heapSample.hbootstrap 0).2.mem 0).ciphertext = (heapSample.mem 0).ciphertext ∧
      ((heapSample.hbootstrap 0).2.mem 0).size = (heapSample.mem 0).size ∧
      ((1 : ℕ) ≠ 0 → (heapSample.hbootstrap 0).2.mem 1 = heapSample.mem 1))) :=
  ⟨by decide, arithmetic_ops_frame heapSample 0 0 1 5 2 (by decide)⟩

/-- Witness for C10 on a concrete initialized model and sample. -/
theorem gradient_update_frame_witness :
    ∃ m' st',
      HomLR.compute_gradient_update
          ⟨1 / 10, some (encrypt_vector [1, 2]), some (encrypt_vector [0])⟩
          HEState.init (encrypt_vector [1, 1]) (encrypt_vector [1]) (encrypt_vector [2 / 3])
        = some (m', st') ∧
      (∃ w', m'.weights = some w' ∧ w'.level = (encrypt_vector [1, 2]).level ∧
        w'.scale = (encrypt_vector [1, 2]).scale ∧ w'.size = (encrypt_vector [1, 2]).size) ∧
      (∃ b', m'.bias = some b' ∧ b'.level = (encrypt_vector [0]).level ∧
        b'.scale = (encrypt_vector [0]).scale ∧ b'.size = (encrypt_vector [0]).size) ∧
      m'.learning_rate = (1 / 10 : ℚ) ∧
      st'.multiplication_count = HEState.init.multiplication_count + 2 ∧
      st'.addition_count = HEState.init.addition_count + 2 ∧
      st'.bootstrap_count = HEState.init.bootstrap_count ∧
      st'.max_depth = HEState.init.max_depth :=
  gradient_update_frame
    ⟨1 / 10, some (encrypt_vector [1, 2]), some (encrypt_vector [0])⟩
    HEState.init (encrypt_vector [1, 1]) (encrypt_vector [1]) (encrypt_vector [2 / 3])
    (encrypt_vector [1, 2]) (encrypt_vector [0]) rfl rfl
